import Mathlib

/-!
Verification of the aggregation/reporting core of a personal finance ledger.

The development shallowly embeds the JavaScript source:
* numbers are exact rationals (ℚ); `Math.round` and `Number(x.toFixed(2))`
  become `jsRound` / `round2` (round half toward +∞, as the JS spec does);
* a JS `Map` is an insertion-ordered association list with `mapGet`/`mapSet`
  (`set` updates the first occurrence in place, else appends — JS semantics);
* a calendar date is a `YMD` triple; comparing `Date` objects built from
  canonical "YYYY-MM-DD" strings is lexicographic comparison of the triples;
* `t.date.slice(0,7)` on a canonically formatted date string is `monthKey`;
* the stateful React callbacks (`upsertBudget`, the derived selectors) become
  pure functions over the ledger snapshot; the impure id generator `uid()` is
  an explicit argument; the while-loop of `getRootId`, which the source does
  not bound, is embedded with an explicit fuel counter (`none` = the loop is
  still running after that many iterations).
-/

/-- Calendar date with day precision (the `YYYY-MM-DD` transaction date). -/
structure YMD where
  y : Int
  m : Int
  d : Int
deriving DecidableEq, Repr

/-- JS `Date` comparison for dates parsed from canonical date strings:
lexicographic on (year, month, day). -/
def ymdLtb (a b : YMD) : Bool :=
  a.y < b.y || (a.y == b.y && (a.m < b.m || (a.m == b.m && a.d < b.d)))

/-- Two-digit zero padding, as used by canonical "YYYY-MM-DD" date strings. -/
def pad2 (n : Int) : String :=
  if 0 ≤ n ∧ n < 10 then "0" ++ toString n else toString n

/-- The slice `t.date.slice(0, 7)` — the year-month prefix of a canonically formatted
date string. -/
def monthKey (d : YMD) : String :=
  toString d.y ++ "-" ++ pad2 d.m

/-- JS `Math.round`: round half toward positive infinity. -/
def jsRound (q : ℚ) : Int := ⌊q + 1 / 2⌋

/-- JS `Number(x.toFixed(2))`: round to 2 fraction digits, half toward +∞. -/
def round2 (q : ℚ) : ℚ := (jsRound (q * 100) : ℚ) / 100

/-- JS `Map.prototype.get`: first (and, in a map built only by `set`, only)
binding of the key. -/
def mapGet {V : Type} (m : List (String × V)) (k : String) : Option V :=
  match m with
  | [] => none
  | (k₁, v₁) :: rest => if k₁ = k then some v₁ else mapGet rest k

/-- JS `Map.prototype.set`: update the existing binding in place, else append. -/
def mapSet {V : Type} (m : List (String × V)) (k : String) (v : V) :
    List (String × V) :=
  match m with
  | [] => [(k, v)]
  | (k₁, v₁) :: rest => if k₁ = k then (k, v) :: rest else (k₁, v₁) :: mapSet rest k v

theorem mapGet_mapSet_self {V : Type} (m : List (String × V)) (k : String) (v : V) :
    mapGet (mapSet m k v) k = some v := by
  induction m with
  | nil => simp [mapGet, mapSet]
  | cons hd tl ih =>
    obtain ⟨k₁, v₁⟩ := hd
    by_cases h : k₁ = k <;> simp [mapGet, mapSet, h, ih]

theorem mapGet_mapSet_ne {V : Type} (m : List (String × V)) (k k₂ : String) (v : V)
    (hne : k₂ ≠ k) : mapGet (mapSet m k v) k₂ = mapGet m k₂ := by
  have hkk : ¬k = k₂ := fun h => hne h.symm
  induction m with
  | nil => simp [mapGet, mapSet, hkk]
  | cons hd tl ih =>
    obtain ⟨k₁, v₁⟩ := hd
    by_cases h : k₁ = k
    · subst h
      simp [mapGet, mapSet, hkk]
    · simp only [mapSet, if_neg h]
      by_cases h₂ : k₁ = k₂ <;> simp [mapGet, h₂, ih]

/-- Sum of `f` over the values of an association list. -/
def sumBy {V : Type} (f : V → ℚ) (m : List (String × V)) : ℚ :=
  (m.map fun kv => f kv.2).sum

theorem sumBy_mapSet {V : Type} (f : V → ℚ) (m : List (String × V)) (k : String)
    (v : V) :
    sumBy f (mapSet m k v) =
      sumBy f m + f v - (match mapGet m k with | some o => f o | none => 0) := by
  induction m with
  | nil => simp [sumBy, mapSet, mapGet]
  | cons hd tl ih =>
    obtain ⟨k₁, v₁⟩ := hd
    by_cases h : k₁ = k
    · simp only [mapSet, if_pos h, mapGet, if_pos h, sumBy, List.map_cons, List.sum_cons]
      ring
    · simp only [mapSet, if_neg h, mapGet, if_neg h, sumBy, List.map_cons, List.sum_cons]
      have := ih
      simp only [sumBy] at this
      rw [this]
      ring

theorem valuesP_mapSet {V : Type} (P : V → Prop) (m : List (String × V))
    (k : String) (v : V) (hm : ∀ kv ∈ m, P kv.2) (hv : P v) :
    ∀ kv ∈ mapSet m k v, P kv.2 := by
  induction m with
  | nil => simpa [mapSet] using hv
  | cons hd tl ih =>
    obtain ⟨k₁, v₁⟩ := hd
    intro kv hkv
    by_cases h : k₁ = k
    · simp only [mapSet, if_pos h, List.mem_cons] at hkv
      rcases hkv with h₁ | h₁
      · simpa [h₁] using hv
      · exact hm kv (List.mem_cons_of_mem _ h₁)
    · simp only [mapSet, if_neg h, List.mem_cons] at hkv
      rcases hkv with h₁ | h₁
      · exact h₁ ▸ hm (k₁, v₁) (List.mem_cons_self _ _)
      · exact ih (fun kv hkv => hm kv (List.mem_cons_of_mem _ hkv)) kv h₁

theorem mapGet_valuesP {V : Type} (P : V → Prop) (m : List (String × V))
    (k : String) (v : V) (hm : ∀ kv ∈ m, P kv.2) (hget : mapGet m k = some v) :
    P v := by
  induction m with
  | nil => simp [mapGet] at hget
  | cons hd tl ih =>
    obtain ⟨k₁, v₁⟩ := hd
    by_cases h : k₁ = k
    · simp only [mapGet, if_pos h, Option.some.injEq] at hget
      exact hget ▸ hm (k₁, v₁) (List.mem_cons_self _ _)
    · simp only [mapGet, if_neg h] at hget
      exact ih (fun kv hkv => hm kv (List.mem_cons_of_mem _ hkv)) hget

/-- Category ("Item"): `{ id, name, type: "income"|"expense", parentId }`. -/
structure Item where
  id : String
  name : String
  type : String
  parentId : Option String
deriving DecidableEq, Repr

/-- Wallet: `{ id, initialBalance }` (name/currency are display-only). -/
structure Wallet where
  id : String
  initialBalance : ℚ
deriving DecidableEq, Repr

/-- Transaction: `{ date, type: "income"|"expense", amount, itemId, walletId }`. -/
structure Tx where
  date : YMD
  type : String
  amount : ℚ
  itemId : String
  walletId : String
deriving DecidableEq, Repr

/-- Lookup `itemMap[id]` where `itemMap = Object.fromEntries(items.map(i => [i.id, i]))`:
with duplicate ids the later entry wins, hence the reversed search. -/
def itemLookup (items : List Item) (id : String) : Option Item :=
  items.reverse.find? fun i => i.id == id

/-- JS truthiness of `cur.parentId`: `null`/`undefined`/`""` are falsy. -/
def parentRef (c : Item) : Option String :=
  match c.parentId with
  | none => none
  | some p => if p = "" then none else some p

/-- The body of `getRootId`'s `while (cur && cur.parentId) cur = itemMap[cur.parentId]`
loop, run for at most `fuel` iterations.  `none` means the loop is still
running after `fuel` iterations (the source has no bound at all); `some cur`
is the value of `cur` when the loop condition first fails. -/
def runRootLoop (items : List Item) : Nat → Option Item → Option (Option Item)
  | 0, _ => none
  | _ + 1, none => some none
  | fuel + 1, some c =>
    match parentRef c with
    | none => some (some c)
    | some p => runRootLoop items fuel (itemLookup items p)

/-- The selector `getRootId(itemId)` from App.jsx, with an explicit iteration bound:
`let cur = itemMap[itemId]; while (cur && cur.parentId) cur = itemMap[cur.parentId];
return cur?.id || itemId;`.  `none` = the while loop has not terminated
within `fuel` iterations. -/
def getRootIdFuel (items : List Item) (fuel : Nat) (itemId : String) :
    Option String :=
  (runRootLoop items fuel (itemLookup items itemId)).map fun cur =>
    match cur with
    | some c => if c.id = "" then itemId else c.id
    | none => itemId

/-- A snapshot whose parent references form a two-cycle. -/
def cycleItems : List Item :=
  [⟨"A", "Alpha", "expense", some "B"⟩, ⟨"B", "Beta", "expense", some "A"⟩]

theorem runRootLoop_cycle (n : Nat) :
    runRootLoop cycleItems n (itemLookup cycleItems "A") = none ∧
      runRootLoop cycleItems n (itemLookup cycleItems "B") = none := by
  induction n with
  | zero => exact ⟨rfl, rfl⟩
  | succ n ih =>
    refine ⟨?_, ?_⟩
    · show runRootLoop cycleItems (n + 1)
        (some ⟨"A", "Alpha", "expense", some "B"⟩) = none
      show runRootLoop cycleItems n (itemLookup cycleItems "B") = none
      exact ih.2
    · show runRootLoop cycleItems (n + 1)
        (some ⟨"B", "Beta", "expense", some "A"⟩) = none
      show runRootLoop cycleItems n (itemLookup cycleItems "A") = none
      exact ih.1

/-- C4: refuted as stated — on the cyclic snapshot `A ⇄ B` the `getRootId`
while loop never exits: for every iteration bound the walk is still running
(`none`), so root resolution does not terminate and no `CorruptHierarchy`
error exists anywhere in the code.  The claim (bounded walk, CorruptHierarchy
failure) describes the spec's intent; the code infinite-loops instead. -/
theorem getRootId_cycle_never_terminates (n : Nat) :
    getRootIdFuel cycleItems n "A" = none := by
  unfold getRootIdFuel
  rw [(runRootLoop_cycle n).1]
  rfl

/-- Snapshot for the orphan claim: `A`'s parent id dangles ("ghost" is absent);
`A1` is a child of `A`. -/
def orphanItems : List Item :=
  [⟨"A", "Alpha", "expense", some "ghost"⟩, ⟨"A1", "AlphaChild", "expense", some "A"⟩]

/-- C5 counterexample: the upward chain from `A1` ends at the orphan `A`
(whose parent id "ghost" is absent from the snapshot), yet `getRootId`
returns the queried id `"A1"`, not the orphan's id `"A"`: after the walk hits
the dangling reference, `cur` is `undefined` and the source returns
`cur?.id || itemId`, i.e. the original argument. -/
theorem getRootId_orphan_counterexample :
    getRootIdFuel orphanItems 5 "A1" = some "A1" ∧ "A1" ≠ "A" := by
  constructor
  · rfl
  · decide

/-- C5 amended: a category whose OWN `parentId` dangles resolves its own id as
root, without error; and in general, whenever the upward walk exits on a
missing map entry (`cur` undefined), `getRootId` returns the queried
category's id unchanged — not the orphan ancestor's id. -/
theorem getRootId_dangling_returns_input (items : List Item) (id p : String)
    (c : Item) (fuel : Nat)
    (hc : itemLookup items id = some c)
    (hp : parentRef c = some p)
    (hmiss : itemLookup items p = none) :
    getRootIdFuel items (fuel + 2) id = some id ∧
      (∀ f, runRootLoop items f (itemLookup items id) = some none →
        getRootIdFuel items f id = some id) := by
  constructor
  · unfold getRootIdFuel
    rw [hc]
    show (runRootLoop items (fuel + 2) (some c)).map _ = some id
    unfold runRootLoop
    rw [hp]
    show (runRootLoop items (fuel + 1) (itemLookup items p)).map _ = some id
    rw [hmiss]
    rfl
  · intro f hf
    unfold getRootIdFuel
    rw [hf]
    rfl

/-- Witness for `getRootId_dangling_returns_input` at a concrete snapshot:
a category `"X"` whose parent id `"ghost"` is dangling resolves to itself. -/
theorem getRootId_dangling_returns_input_witness :
    getRootIdFuel [⟨"X", "Xn", "expense", some "ghost"⟩] 2 "X" = some "X" :=
  (getRootId_dangling_returns_input [⟨"X", "Xn", "expense", some "ghost"⟩]
    "X" "ghost" ⟨"X", "Xn", "expense", some "ghost"⟩ 0 rfl rfl rfl).1

/-- One entry of the root-rollup report: `{ itemId, amount, type }`. -/
structure RootEntry where
  itemId : String
  amount : ℚ
  type : String
deriving DecidableEq, Repr

/-- One loop iteration of `actualByTopLevelForMonth`: skip transactions of
other months, resolve the root via `getRootId` (propagating fuel exhaustion
as `none`), skip transactions whose root is absent from `itemMap`, and
accumulate `prev.amount + Math.abs(t.amount)` under the root id. -/
def atlStep (items : List Item) (fuel : Nat) (month : String)
    (st : Option (List (String × (ℚ × String)))) (t : Tx) :
    Option (List (String × (ℚ × String))) :=
  match st with
  | none => none
  | some sums =>
    if monthKey t.date ≠ month then some sums
    else
      match getRootIdFuel items fuel t.itemId with
      | none => none
      | some root =>
        match itemLookup items root with
        | none => some sums
        | some rootItem =>
          let prev := (mapGet sums root).getD (0, rootItem.type)
          some (mapSet sums root (prev.1 + |t.amount|, rootItem.type))

/-- The selector `actualByTopLevelForMonth(month)` from App.jsx (the spec's
`actualByRootForMonth`), with the unbounded `getRootId` walk given `fuel`
iterations; `none` = some root walk did not terminate within `fuel`. -/
def actualByTopLevelForMonthFuel (items : List Item) (txs : List Tx)
    (fuel : Nat) (month : String) : Option (List RootEntry) :=
  (txs.foldl (atlStep items fuel month) (some [])).map fun sums =>
    sums.map fun kv => ⟨kv.1, kv.2.1, kv.2.2⟩

/-- C2: a transaction dated in the requested month is attributed, with
absolute amount, to the ROOT category obtained by walking `getRootId` up
from its `itemId` — not to its immediate category. -/
theorem actualByTopLevel_attributes_to_root (items : List Item) (t : Tx)
    (month : String) (fuel : Nat) (root : String) (rootItem : Item)
    (hm : monthKey t.date = month)
    (hr : getRootIdFuel items fuel t.itemId = some root)
    (hl : itemLookup items root = some rootItem) :
    actualByTopLevelForMonthFuel items [t] fuel month =
      some [⟨root, |t.amount|, rootItem.type⟩] := by
  unfold actualByTopLevelForMonthFuel
  simp [List.foldl, atlStep, hm, hr, hl, mapGet, mapSet]

/-- Three-level chain for the C2 witness: `A1a` child of `A1` child of `A`. -/
def chainItems : List Item :=
  [⟨"A", "Groceries", "expense", none⟩,
   ⟨"A1", "Produce", "expense", some "A"⟩,
   ⟨"A1a", "Fruit", "expense", some "A1"⟩]

/-- Witness for `actualByTopLevel_attributes_to_root`: on the chain
`A → A1 → A1a`, a single transaction against `A1a` with amount 50 appears
under the root `A` with value 50. -/
theorem actualByTopLevel_attributes_to_root_witness :
    actualByTopLevelForMonthFuel chainItems
      [⟨⟨2024, 1, 15⟩, "expense", 50, "A1a", "w1"⟩] 4 "2024-01" =
      some [⟨"A", 50, "expense"⟩] := by
  have h := actualByTopLevel_attributes_to_root chainItems
    ⟨⟨2024, 1, 15⟩, "expense", 50, "A1a", "w1"⟩ "2024-01" 4 "A"
    ⟨"A", "Groceries", "expense", none⟩ (by decide) (by decide) (by decide)
  simpa using h

/-- format.js `fmtMonthLabel`: an Intl-based human month/year label.  The
locale rendering is a platform API; no claim depends on the label text, so it
is modelled as the period token itself. -/
def fmtMonthLabel (ym : String) : String := ym

/-- Monthly bucket: `{ monthKey, label, income, expense }`. -/
structure Bucket where
  monthKey : String
  label : String
  income : ℚ
  expense : ℚ
deriving DecidableEq, Repr

/-- The default bucket `{ monthKey: key, label: fmtMonthLabel(key), income: 0,
expense: 0 }`. -/
def emptyBucket (key : String) : Bucket :=
  ⟨key, fmtMonthLabel key, 0, 0⟩

/-- Stable insertion into a sorted list — the model of JS `Array.prototype.sort`
with an explicit comparator (observably, a stable sort by the comparator). -/
def insertLe {α : Type} (le : α → α → Bool) (a : α) : List α → List α
  | [] => [a]
  | b :: rest => if le a b then a :: b :: rest else b :: insertLe le a rest

/-- Stable sort by a Boolean comparator (insertion sort). -/
def sortLe {α : Type} (le : α → α → Bool) : List α → List α
  | [] => []
  | a :: rest => insertLe le a (sortLe le rest)

theorem insertLe_perm {α : Type} (le : α → α → Bool) (a : α) (l : List α) :
    List.Perm (insertLe le a l) (a :: l) := by
  induction l with
  | nil => exact List.Perm.refl _
  | cons b rest ih =>
    by_cases h : le a b
    · simp [insertLe, h]
    · simp only [insertLe, h, Bool.false_eq_true, if_false]
      exact (ih.cons b).trans (List.Perm.swap a b rest)

theorem sortLe_perm {α : Type} (le : α → α → Bool) (l : List α) :
    List.Perm (sortLe le l) l := by
  induction l with
  | nil => exact List.Perm.refl _
  | cons a rest ih => exact (insertLe_perm le a (sortLe le rest)).trans (ih.cons a)

/-- Ascending comparison of month keys (`localeCompare` on canonical
"YYYY-MM" tokens is lexicographic). -/
def bucketLe (a b : Bucket) : Bool :=
  !decide (b.monthKey < a.monthKey)

/-- The test `d < start || d > end` — the range filter of `buildMonthlySeries`;
`inRange` is its negation (the transaction is kept). -/
def inRangeb (start endD : YMD) (d : YMD) : Bool :=
  !(ymdLtb d start || ymdLtb endD d)

/-- One loop iteration of `buildMonthlySeries`: skip out-of-range
transactions, read (or default) the month bucket, bump its income or expense
by the amount, and store it back. -/
def msStep (start endD : YMD) (m : List (String × Bucket)) (t : Tx) :
    List (String × Bucket) :=
  if !inRangeb start endD t.date then m
  else
    let key := monthKey t.date
    let obj := (mapGet m key).getD (emptyBucket key)
    let obj :=
      if t.type = "income" then { obj with income := obj.income + t.amount }
      else { obj with expense := obj.expense + t.amount }
    mapSet m key obj

/-- analytics.js `buildMonthlySeries(txs, from, to)`.  The source resolves
absent range endpoints from the system clock (Jan 1 of the current year /
now); the embedding takes the resolved endpoints as arguments.  Buckets are
accumulated exactly, sorted ascending by month key, then the returned
`income`/`expense` are `Math.round`ed to integers. -/
def buildMonthlySeries (txs : List Tx) (start endD : YMD) : List Bucket :=
  let m := txs.foldl (msStep start endD) []
  (sortLe bucketLe (m.map fun kv => kv.2)).map fun p =>
    { p with income := (jsRound p.income : ℚ), expense := (jsRound p.expense : ℚ) }

theorem eq_num_of_den_one (q : ℚ) (h : q.den = 1) : (q.num : ℚ) = q := by
  have h₁ := Rat.num_div_den q
  rw [h] at h₁
  simpa using h₁

theorem den_one_add (q r : ℚ) (hq : q.den = 1) (hr : r.den = 1) :
    (q + r).den = 1 := by
  rw [← eq_num_of_den_one q hq, ← eq_num_of_den_one r hr, ← Int.cast_add]
  exact Rat.den_intCast _

theorem jsRound_den_one (q : ℚ) (h : q.den = 1) : (jsRound q : ℚ) = q := by
  rw [← eq_num_of_den_one q h]
  have h₂ : jsRound (q.num : ℚ) = q.num := by
    unfold jsRound
    rw [Int.floor_eq_iff]
    constructor
    · norm_num
    · norm_num
  rw [h₂]

theorem sumIncome_msStep (s e : YMD) (m : List (String × Bucket)) (t : Tx) :
    sumBy (fun b => b.income) (msStep s e m t) =
      sumBy (fun b => b.income) m +
        (if inRangeb s e t.date ∧ t.type = "income" then t.amount else 0) := by
  unfold msStep
  by_cases hin : inRangeb s e t.date
  · simp only [hin, Bool.not_true, Bool.false_eq_true, if_false, true_and]
    rw [sumBy_mapSet]
    by_cases hty : t.type = "income" <;>
      cases hget : mapGet m (monthKey t.date) <;>
        simp [hty, hget, emptyBucket] <;> ring
  · simp [hin]

theorem sumExpense_msStep (s e : YMD) (m : List (String × Bucket)) (t : Tx) :
    sumBy (fun b => b.expense) (msStep s e m t) =
      sumBy (fun b => b.expense) m +
        (if inRangeb s e t.date ∧ ¬t.type = "income" then t.amount else 0) := by
  unfold msStep
  by_cases hin : inRangeb s e t.date
  · simp only [hin, Bool.not_true, Bool.false_eq_true, if_false, true_and]
    rw [sumBy_mapSet]
    by_cases hty : t.type = "income" <;>
      cases hget : mapGet m (monthKey t.date) <;>
        simp [hty, hget, emptyBucket] <;> ring
  · simp [hin]

theorem foldl_msStep_sumIncome (s e : YMD) :
    ∀ (txs : List Tx) (m : List (String × Bucket)),
      sumBy (fun b => b.income) (txs.foldl (msStep s e) m) =
        sumBy (fun b => b.income) m +
          ((txs.filter fun t => inRangeb s e t.date && t.type == "income").map
            (fun t => t.amount)).sum
  | [], m => by simp
  | t :: txs, m => by
    rw [List.foldl_cons, foldl_msStep_sumIncome s e txs, sumIncome_msStep]
    by_cases hin : inRangeb s e t.date <;> by_cases hty : t.type = "income" <;>
      simp [hin, hty] <;> ring

theorem foldl_msStep_sumExpense (s e : YMD) :
    ∀ (txs : List Tx) (m : List (String × Bucket)),
      sumBy (fun b => b.expense) (txs.foldl (msStep s e) m) =
        sumBy (fun b => b.expense) m +
          ((txs.filter fun t => inRangeb s e t.date && !(t.type == "income")).map
            (fun t => t.amount)).sum
  | [], m => by simp
  | t :: txs, m => by
    rw [List.foldl_cons, foldl_msStep_sumExpense s e txs, sumExpense_msStep]
    by_cases hin : inRangeb s e t.date <;> by_cases hty : t.type = "income" <;>
      simp [hin, hty] <;> ring

theorem foldl_msStep_den_one (s e : YMD) :
    ∀ (txs : List Tx) (m : List (String × Bucket)),
      (∀ t ∈ txs, t.amount.den = 1) →
      (∀ kv ∈ m, kv.2.income.den = 1 ∧ kv.2.expense.den = 1) →
      ∀ kv ∈ txs.foldl (msStep s e) m, kv.2.income.den = 1 ∧ kv.2.expense.den = 1
  | [], m, _, hm => by simpa using hm
  | t :: txs, m, htxs, hm => by
    rw [List.foldl_cons]
    refine foldl_msStep_den_one s e txs _
      (fun t₂ ht₂ => htxs t₂ (List.mem_cons_of_mem _ ht₂)) ?_
    have hamt : t.amount.den = 1 := htxs t (List.mem_cons_self _ _)
    unfold msStep
    by_cases hin : inRangeb s e t.date
    · simp only [hin, Bool.not_true, Bool.false_eq_true, if_false]
      have hobj : ((mapGet m (monthKey t.date)).getD
          (emptyBucket (monthKey t.date))).income.den = 1 ∧
          ((mapGet m (monthKey t.date)).getD
          (emptyBucket (monthKey t.date))).expense.den = 1 := by
        cases hget : mapGet m (monthKey t.date) with
        | none => simp [emptyBucket]
        | some o =>
          simpa using
            mapGet_valuesP (fun b => b.income.den = 1 ∧ b.expense.den = 1) m _ o hm hget
      by_cases hty : t.type = "income"
      · rw [if_pos hty]
        refine valuesP_mapSet (fun b => b.income.den = 1 ∧ b.expense.den = 1) m _ _ hm ?_
        refine ⟨?_, ?_⟩
        · simpa using den_one_add _ _ hobj.1 hamt
        · simpa using hobj.2
      · rw [if_neg hty]
        refine valuesP_mapSet (fun b => b.income.den = 1 ∧ b.expense.den = 1) m _ _ hm ?_
        refine ⟨?_, ?_⟩
        · simpa using hobj.1
        · simpa using den_one_add _ _ hobj.2 hamt
    · simpa [hin] using hm

theorem sum_income_values (txs : List Tx) (s e : YMD)
    (hden : ∀ t ∈ txs, t.amount.den = 1) :
    ((buildMonthlySeries txs s e).map fun b => b.income).sum =
      ((txs.filter fun t => inRangeb s e t.date && t.type == "income").map
        fun t => t.amount).sum := by
  unfold buildMonthlySeries
  have hvals := foldl_msStep_den_one s e txs [] hden (by simp)
  rw [List.map_map]
  have hcongr :
      ((sortLe bucketLe ((txs.foldl (msStep s e) []).map fun kv => kv.2)).map
        ((fun b => b.income) ∘ fun p =>
          { p with income := (jsRound p.income : ℚ),
                   expense := (jsRound p.expense : ℚ) })) =
      (sortLe bucketLe ((txs.foldl (msStep s e) []).map fun kv => kv.2)).map
        fun p => ((jsRound p.income : ℚ)) := rfl
  rw [hcongr]
  have hperm := (sortLe_perm bucketLe
    ((txs.foldl (msStep s e) []).map fun kv => kv.2)).map
    fun p => ((jsRound p.income : ℚ))
  rw [hperm.sum_eq, List.map_map]
  have hpt : ((txs.foldl (msStep s e) []).map
      ((fun p => ((jsRound p.income : ℚ))) ∘ fun kv => kv.2)) =
      (txs.foldl (msStep s e) []).map fun kv => kv.2.income := by
    refine List.map_congr_left fun kv hkv => ?_
    exact jsRound_den_one _ (hvals kv hkv).1
  rw [hpt]
  have := foldl_msStep_sumIncome s e txs []
  simp only [sumBy] at this
  simpa using this

theorem sum_expense_values (txs : List Tx) (s e : YMD)
    (hden : ∀ t ∈ txs, t.amount.den = 1) :
    ((buildMonthlySeries txs s e).map fun b => b.expense).sum =
      ((txs.filter fun t => inRangeb s e t.date && !(t.type == "income")).map
        fun t => t.amount).sum := by
  unfold buildMonthlySeries
  have hvals := foldl_msStep_den_one s e txs [] hden (by simp)
  rw [List.map_map]
  have hcongr :
      ((sortLe bucketLe ((txs.foldl (msStep s e) []).map fun kv => kv.2)).map
        ((fun b => b.expense) ∘ fun p =>
          { p with income := (jsRound p.income : ℚ),
                   expense := (jsRound p.expense : ℚ) })) =
      (sortLe bucketLe ((txs.foldl (msStep s e) []).map fun kv => kv.2)).map
        fun p => ((jsRound p.expense : ℚ)) := rfl
  rw [hcongr]
  have hperm := (sortLe_perm bucketLe
    ((txs.foldl (msStep s e) []).map fun kv => kv.2)).map
    fun p => ((jsRound p.expense : ℚ))
  rw [hperm.sum_eq, List.map_map]
  have hpt : ((txs.foldl (msStep s e) []).map
      ((fun p => ((jsRound p.expense : ℚ))) ∘ fun kv => kv.2)) =
      (txs.foldl (msStep s e) []).map fun kv => kv.2.expense := by
    refine List.map_congr_left fun kv hkv => ?_
    exact jsRound_den_one _ (hvals kv hkv).2
  rw [hpt]
  have := foldl_msStep_sumExpense s e txs []
  simp only [sumBy] at this
  simpa using this


/-- Concrete income transaction with fractional amount 2/5. -/
def fracTx : Tx := ⟨⟨2024, 1, 5⟩, "income", 2/5, "i", "w"⟩

/-- C3 counterexample: the claim fails as stated, because the returned
buckets are `Math.round`ed to integers.  A single in-range income transaction
of amount 2/5 yields a bucket income of `round(0.4) = 0`, so the sum of
bucket incomes (0) differs from the sum of included income amounts (2/5). -/
theorem buildMonthlySeries_conservation_counterexample :
    ((buildMonthlySeries [fracTx] ⟨2024, 1, 1⟩ ⟨2024, 12, 31⟩).map
        fun b => b.income).sum = 0 ∧
    (([fracTx].filter fun t =>
        inRangeb ⟨2024, 1, 1⟩ ⟨2024, 12, 31⟩ t.date && t.type == "income").map
        fun t => t.amount).sum = 2/5 ∧
    (0 : ℚ) ≠ 2/5 := by
  refine ⟨?_, ?_, by norm_num⟩
  · simp [buildMonthlySeries, msStep, fracTx, inRangeb, ymdLtb, mapGet, mapSet,
      emptyBucket, sortLe, insertLe, jsRound]
    norm_num
  · simp [fracTx, inRangeb, ymdLtb]

/-- C3 amended: the per-bucket accumulation is exact, but the returned bucket
fields are the integer `Math.round` of the accumulated sums, so conservation
of the RETURNED income/expense sums holds exactly whenever every transaction
amount is an integer (rounding is then the identity); for fractional amounts
it can be off by the rounding (see the counterexample). -/
theorem buildMonthlySeries_conservation (txs : List Tx) (s e : YMD)
    (hden : ∀ t ∈ txs, t.amount.den = 1)
    (hty : ∀ t ∈ txs, t.type = "income" ∨ t.type = "expense") :
    ((buildMonthlySeries txs s e).map fun b => b.income).sum =
      ((txs.filter fun t => inRangeb s e t.date && t.type == "income").map
        fun t => t.amount).sum ∧
    ((buildMonthlySeries txs s e).map fun b => b.expense).sum =
      ((txs.filter fun t => inRangeb s e t.date && t.type == "expense").map
        fun t => t.amount).sum := by
  refine ⟨sum_income_values txs s e hden, ?_⟩
  rw [sum_expense_values txs s e hden]
  have hf : (txs.filter fun t => inRangeb s e t.date && !(t.type == "income")) =
      txs.filter fun t => inRangeb s e t.date && t.type == "expense" := by
    refine List.filter_congr fun t ht => ?_
    rcases hty t ht with h | h <;> simp [h]
  rw [hf]

/-- The spec's end-to-end scenario ledger (integer amounts). -/
def scenarioTxs : List Tx :=
  [⟨⟨2024, 1, 5⟩, "expense", 120, "Food", "w"⟩,
   ⟨⟨2024, 1, 20⟩, "income", 1000, "Salary", "w"⟩,
   ⟨⟨2024, 2, 10⟩, "expense", 80, "Food", "w"⟩]

/-- Witness for `buildMonthlySeries_conservation` on the spec's end-to-end
scenario ledger. -/
theorem buildMonthlySeries_conservation_witness :
    ((buildMonthlySeries scenarioTxs ⟨2024, 1, 1⟩ ⟨2024, 12, 31⟩).map
        fun b => b.income).sum =
      ((scenarioTxs.filter fun t =>
          inRangeb ⟨2024, 1, 1⟩ ⟨2024, 12, 31⟩ t.date && t.type == "income").map
        fun t => t.amount).sum :=
  (buildMonthlySeries_conservation scenarioTxs ⟨2024, 1, 1⟩ ⟨2024, 12, 31⟩
    (by intro t ht; fin_cases ht <;> rfl)
    (by intro t ht; fin_cases ht <;> simp [scenarioTxs])).1

/-- Lookup `itemMap.get(id) || 'Unknown'` where `itemMap` maps item ids to names
(`new Map(items.map(i => [i.id, i.name]))`, later duplicates win): a missing
id — or a falsy (empty) name — yields the literal label "Unknown". -/
def itemNameOf (items : List Item) (id : String) : String :=
  match itemLookup items id with
  | some i => if i.name = "" then "Unknown" else i.name
  | none => "Unknown"

/-- One loop iteration of `buildExpenseStructure`: keep in-range expense
transactions and bump the per-name sum:
`m.set(name, (m.get(name) || 0) + t.amount)`. -/
def esStep (items : List Item) (s e : YMD) (m : List (String × ℚ)) (t : Tx) :
    List (String × ℚ) :=
  if t.type ≠ "expense" then m
  else if !inRangeb s e t.date then m
  else
    mapSet m (itemNameOf items t.itemId)
      ((mapGet m (itemNameOf items t.itemId)).getD 0 + t.amount)

/-- Expense-structure row: `{ item, amount, share: Math.round(amount/total*100) }`. -/
structure ExpRow where
  item : String
  amount : ℚ
  share : ℤ
deriving DecidableEq, Repr

/-- analytics.js `buildExpenseStructure(txs, items, from, to)` (range endpoints
resolved as in `buildMonthlySeries`): group in-range expense amounts by
category name, return `[]` if the total is falsy (zero), else one row per
name with its integer-rounded percentage share. -/
def buildExpenseStructure (txs : List Tx) (items : List Item) (s e : YMD) :
    List ExpRow :=
  let m := txs.foldl (esStep items s e) []
  let total := sumBy id m
  if total = 0 then []
  else m.map fun kv => ⟨kv.1, kv.2, jsRound (kv.2 / total * 100)⟩

theorem sumBy_esStep (items : List Item) (s e : YMD) (m : List (String × ℚ))
    (t : Tx) :
    sumBy id (esStep items s e m t) =
      sumBy id m + (if t.type = "expense" ∧ inRangeb s e t.date then t.amount else 0) := by
  unfold esStep
  by_cases hty : t.type = "expense"
  · by_cases hin : inRangeb s e t.date
    · rw [if_neg (by simp [hty]), if_neg (by simp [hin]), sumBy_mapSet,
        if_pos ⟨hty, hin⟩]
      cases hget : mapGet m (itemNameOf items t.itemId) <;> simp [hget] <;> ring
    · simp [hty, hin]
  · simp [hty]

theorem foldl_esStep_sum (items : List Item) (s e : YMD) :
    ∀ (txs : List Tx) (m : List (String × ℚ)),
      sumBy id (txs.foldl (esStep items s e) m) =
        sumBy id m +
          ((txs.filter fun t => t.type == "expense" && inRangeb s e t.date).map
            fun t => t.amount).sum
  | [], m => by simp
  | t :: txs, m => by
    rw [List.foldl_cons, foldl_esStep_sum items s e txs, sumBy_esStep]
    by_cases hty : t.type = "expense" <;> by_cases hin : inRangeb s e t.date <;>
      simp [hty, hin] <;> ring

theorem foldl_esStep_nonneg (items : List Item) (s e : YMD) :
    ∀ (txs : List Tx) (m : List (String × ℚ)),
      (∀ t ∈ txs, 0 ≤ t.amount) → (∀ kv ∈ m, 0 ≤ kv.2) →
      ∀ kv ∈ txs.foldl (esStep items s e) m, 0 ≤ kv.2
  | [], m, _, hm => by simpa using hm
  | t :: txs, m, htxs, hm => by
    rw [List.foldl_cons]
    refine foldl_esStep_nonneg items s e txs _
      (fun t₂ ht₂ => htxs t₂ (List.mem_cons_of_mem _ ht₂)) ?_
    have hamt : 0 ≤ t.amount := htxs t (List.mem_cons_self _ _)
    unfold esStep
    by_cases hty : t.type = "expense"
    · by_cases hin : inRangeb s e t.date
      · simp only [hty, hin, not_true, Bool.not_true, Bool.false_eq_true, if_false,
          ite_false, true_and, if_true, ite_true]
        refine valuesP_mapSet (fun v => 0 ≤ v) m _ _ hm ?_
        have h0 : (0 : ℚ) ≤ (mapGet m (itemNameOf items t.itemId)).getD 0 := by
          cases hget : mapGet m (itemNameOf items t.itemId) with
          | none => simp
          | some o => simpa using mapGet_valuesP (fun v => 0 ≤ v) m _ o hm hget
        positivity
      · simpa [hty, hin] using hm
    · simpa [hty] using hm

theorem mem_le_sumBy (m : List (String × ℚ)) (hm : ∀ kv ∈ m, 0 ≤ kv.2) :
    ∀ kv ∈ m, kv.2 ≤ sumBy id m := by
  induction m with
  | nil => simp
  | cons hd tl ih =>
    intro kv hkv
    have htl : ∀ kv ∈ tl, 0 ≤ kv.2 := fun kv hkv => hm kv (List.mem_cons_of_mem _ hkv)
    have hsum : (0 : ℚ) ≤ sumBy id tl := by
      refine List.sum_nonneg ?_
      intro x hx
      obtain ⟨kv₂, hkv₂, hx₂⟩ := List.mem_map.mp hx
      exact hx₂ ▸ htl kv₂ hkv₂
    rcases List.mem_cons.mp hkv with h | h
    · subst h
      simp only [sumBy, List.map_cons, List.sum_cons, id_eq]
      simp only [sumBy, id_eq] at hsum
      linarith
    · have := ih htl kv h
      have hhd : 0 ≤ hd.2 := hm hd (List.mem_cons_self _ _)
      simp only [sumBy, List.map_cons, List.sum_cons, id_eq]
      simp only [sumBy, id_eq] at this
      linarith

/-- C9: with non-negative transaction amounts (the spec's data-model
assumption), every returned `share` is an integer within `[0, 100]`; and if
the total of in-range expense amounts is zero, the result is the empty list
(the source's `if (!total) return []` guard), not a divide-by-zero artifact. -/
theorem buildExpenseStructure_share_bounds (txs : List Tx) (items : List Item)
    (s e : YMD) (hnn : ∀ t ∈ txs, 0 ≤ t.amount) :
    (∀ row ∈ buildExpenseStructure txs items s e,
      0 ≤ row.share ∧ row.share ≤ 100) ∧
    (((txs.filter fun t => t.type == "expense" && inRangeb s e t.date).map
        fun t => t.amount).sum = 0 →
      buildExpenseStructure txs items s e = []) := by
  have htotal : sumBy id (txs.foldl (esStep items s e) []) =
      ((txs.filter fun t => t.type == "expense" && inRangeb s e t.date).map
        fun t => t.amount).sum := by
    rw [foldl_esStep_sum items s e txs []]
    simp [sumBy]
  constructor
  · intro row hrow
    unfold buildExpenseStructure at hrow
    by_cases hz : sumBy id (txs.foldl (esStep items s e) []) = 0
    · simp [hz] at hrow
    · rw [if_neg hz] at hrow
      obtain ⟨kv, hkv, hrow₂⟩ := List.mem_map.mp hrow
      have hnneg := foldl_esStep_nonneg items s e txs [] hnn (by simp)
      have hv : 0 ≤ kv.2 := hnneg kv hkv
      have hle : kv.2 ≤ sumBy id (txs.foldl (esStep items s e) []) :=
        mem_le_sumBy _ hnneg kv hkv
      have htpos : 0 < sumBy id (txs.foldl (esStep items s e) []) := by
        rcases lt_or_eq_of_le (le_trans hv hle) with h | h
        · exact h
        · exact absurd h.symm hz
      have hq0 : 0 ≤ kv.2 / sumBy id (txs.foldl (esStep items s e) []) * 100 := by
        positivity
      have hq100 : kv.2 / sumBy id (txs.foldl (esStep items s e) []) * 100 ≤ 100 := by
        have hdiv : kv.2 / sumBy id (txs.foldl (esStep items s e) []) ≤ 1 :=
          (div_le_one htpos).mpr hle
        nlinarith
      subst hrow₂
      constructor
      · simp only [jsRound]
        rw [Int.le_floor]
        push_cast
        linarith
      · simp only [jsRound]
        have hfl : (⌊kv.2 / sumBy id (txs.foldl (esStep items s e) []) * 100 + 1 / 2⌋ : ℤ) ≤
            ⌊(201 : ℚ) / 2⌋ := Int.floor_le_floor (by linarith)
        have h201 : (⌊(201 : ℚ) / 2⌋ : ℤ) = 100 := by norm_num
        omega
  · intro hzero
    unfold buildExpenseStructure
    rw [if_pos (htotal.trans hzero)]

/-- Concrete ledger for the C9 witness: two expense categories, amounts 30
and 70 within range. -/
def esTxs : List Tx :=
  [⟨⟨2024, 1, 5⟩, "expense", 30, "a", "w"⟩,
   ⟨⟨2024, 1, 8⟩, "expense", 70, "b", "w"⟩]

/-- Items for the C9 witness. -/
def esItems : List Item :=
  [⟨"a", "Food", "expense", none⟩, ⟨"b", "Transport", "expense", none⟩]

/-- Witness for `buildExpenseStructure_share_bounds`: shares of the 30/70
ledger are bounded by 0 and 100. -/
theorem buildExpenseStructure_share_bounds_witness :
    ∃ rows, buildExpenseStructure esTxs esItems ⟨2024, 1, 1⟩ ⟨2024, 12, 31⟩ = rows ∧
      ∀ row ∈ rows, 0 ≤ row.share ∧ row.share ≤ 100 :=
  ⟨buildExpenseStructure esTxs esItems ⟨2024, 1, 1⟩ ⟨2024, 12, 31⟩, rfl,
    (buildExpenseStructure_share_bounds esTxs esItems ⟨2024, 1, 1⟩ ⟨2024, 12, 31⟩
      (by intro t ht; fin_cases ht <;> norm_num)).1⟩

/-- JS leap-year rule used by `Date` month lengths. -/
def isLeap (y : Int) : Bool :=
  (y % 4 == 0 && y % 100 != 0) || y % 400 == 0

/-- Days in month `m` (1-12) of year `y`, as `new Date(y, m, 0).getDate()`. -/
def daysInMonth (y m : Int) : Int :=
  if m = 2 then (if isLeap y then 29 else 28)
  else if m = 4 ∨ m = 6 ∨ m = 9 ∨ m = 11 then 30 else 31

/-- The value `new Date(y, m-1, 1)`: the JS `Date` constructor normalizes month
overflow (floor division), e.g. `new Date(2024, 12, 1)` is January 2025. -/
def monthStart (y m : Int) : YMD :=
  ⟨y + (m - 1).ediv 12, (m - 1).emod 12 + 1, 1⟩

/-- The value `new Date(y, m, 0)`: day 0 is the last day of the previous month, i.e.
the last day of the (normalized) month `m - 1`. -/
def monthEnd (y m : Int) : YMD :=
  ⟨y + (m - 1).ediv 12, (m - 1).emod 12 + 1,
    daysInMonth (y + (m - 1).ediv 12) ((m - 1).emod 12 + 1)⟩

/-- The split `period.split('-')` on the underlying characters. -/
def splitOnDash : List Char → List (List Char)
  | [] => [[]]
  | c :: rest =>
    let r := splitOnDash rest
    if c = '-' then [] :: r
    else
      match r with
      | [] => [[c]]
      | g :: gs => (c :: g) :: gs

/-- Decimal value of a digit string. -/
def digitsToNat (cs : List Char) : Nat :=
  cs.foldl (fun acc c => 10 * acc + (c.toNat - '0'.toNat)) 0

/-- JS `Number(s)` restricted to the token shapes that a split period string can
take here: `""` is 0, a digit string is its value, anything else is NaN
(`none`).  (Signs, decimals, exponents and whitespace do not occur in the
period tokens this development evaluates.) -/
def jsNumber (cs : List Char) : Option Int :=
  if cs = [] then some 0
  else if cs.all fun c => '0' ≤ c && c ≤ '9' then some (digitsToNat cs) else none

/-- The destructuring `const [y, m] = period.split('-').map(Number)`: the first two components
(`undefined`, i.e. NaN after the arithmetic, when missing). -/
def parsePeriod (period : String) : Option Int × Option Int :=
  let parts := (splitOnDash period.data).map jsNumber
  ((parts.get? 0).getD none, (parts.get? 1).getD none)

/-- The `[from, to]` pair `new Date(y, m-1, 1)` / `new Date(y, m, 0)`;
`none` when either component is NaN (an Invalid Date). -/
def periodRange (period : String) : Option (YMD × YMD) :=
  match parsePeriod period with
  | (some y, some m) => some (monthStart y m, monthEnd y m)
  | _ => none

/-- The guard `if (d < from || d > to) continue;` — with Invalid Date bounds (NaN) both
comparisons are false, so NOTHING is skipped: every expense transaction is
included. -/
def inReportRange (range : Option (YMD × YMD)) (d : YMD) : Bool :=
  match range with
  | none => true
  | some ft => !(ymdLtb d ft.1 || ymdLtb ft.2 d)

/-- Budget entry in the analytics.js shape: `{ itemId, period, amount }`. -/
structure BudgetRec where
  itemId : String
  period : String
  amount : ℚ
deriving DecidableEq, Repr

/-- Pre-rounding budget-report row accumulator `{ itemId, itemName, budget,
actual }`. -/
structure BRAccRow where
  itemId : String
  itemName : String
  budget : ℚ
  actual : ℚ
deriving DecidableEq, Repr

/-- Returned budget-report row
`{ itemId, itemName, budget, actual, difference }`. -/
structure BRRow where
  itemId : String
  itemName : String
  budget : ℚ
  actual : ℚ
  difference : ℚ
deriving DecidableEq, Repr

/-- The `{budget, actual, difference}` totals record. -/
structure BRTotals where
  budget : ℚ
  actual : ℚ
  difference : ℚ
deriving DecidableEq, Repr

/-- The report record `{ rows, totals }`. -/
structure BudgetReport where
  rows : List BRRow
  totals : BRTotals
deriving DecidableEq, Repr

/-- Actual-spend accumulation loop of `buildBudgetReport`:
`actualMap.set(t.itemId, (actualMap.get(t.itemId)||0)+t.amount)` for in-range
expense transactions. -/
def actualStep (range : Option (YMD × YMD)) (m : List (String × ℚ)) (t : Tx) :
    List (String × ℚ) :=
  if t.type ≠ "expense" then m
  else if !inReportRange range t.date then m
  else mapSet m t.itemId ((mapGet m t.itemId).getD 0 + t.amount)

/-- Budget-rows loop: one row per budget entry of the requested period
(later duplicates overwrite). -/
def budgetRowStep (items : List Item) (period : String)
    (m : List (String × BRAccRow)) (b : BudgetRec) : List (String × BRAccRow) :=
  if b.period ≠ period then m
  else mapSet m b.itemId ⟨b.itemId, itemNameOf items b.itemId, b.amount, 0⟩

/-- Actual-merge loop: `row.actual = actual` on the existing row, or a fresh
zero-budget row. -/
def actualRowStep (items : List Item) (m : List (String × BRAccRow))
    (kv : String × ℚ) : List (String × BRAccRow) :=
  let row := (mapGet m kv.1).getD ⟨kv.1, itemNameOf items kv.1, 0, 0⟩
  mapSet m kv.1 { row with actual := kv.2 }

/-- One reduce step of the totals accumulation. -/
def brAddRow (acc : BRTotals) (r : BRRow) : BRTotals :=
  ⟨acc.budget + r.budget, acc.actual + r.actual, acc.difference + r.difference⟩

/-- The totals record: sum all (already returned, hence rounded) row values
independently, then round each of the three sums to 2 digits. -/
def brTotals (rows : List BRRow) : BRTotals :=
  let t := rows.foldl brAddRow ⟨0, 0, 0⟩
  ⟨round2 t.budget, round2 t.actual, round2 t.difference⟩

/-- analytics.js `buildBudgetReport(txs, items, budgets, period)`. -/
def buildBudgetReport (txs : List Tx) (items : List Item)
    (budgets : List BudgetRec) (period : String) : BudgetReport :=
  let range := periodRange period
  let actualMap := txs.foldl (actualStep range) []
  let rowsMap := budgets.foldl (budgetRowStep items period) []
  let rowsMap₂ := actualMap.foldl (actualRowStep items) rowsMap
  let rows :=
    ((rowsMap₂.map fun kv => kv.2).map fun r =>
      (⟨r.itemId, r.itemName, round2 r.budget, round2 r.actual,
        round2 (r.budget - r.actual)⟩ : BRRow)).filter
      fun r => decide (0 < r.budget) || decide (0 < r.actual)
  ⟨rows, brTotals rows⟩

theorem brFold_fields :
    ∀ (rows : List BRRow) (acc : BRTotals),
      (rows.foldl brAddRow acc).budget =
          acc.budget + ((rows.map fun r => r.budget)).sum ∧
        (rows.foldl brAddRow acc).actual =
          acc.actual + ((rows.map fun r => r.actual)).sum ∧
        (rows.foldl brAddRow acc).difference =
          acc.difference + ((rows.map fun r => r.difference)).sum
  | [], acc => by simp
  | r :: rows, acc => by
    rw [List.foldl_cons]
    obtain ⟨h₁, h₂, h₃⟩ := brFold_fields rows (brAddRow acc r)
    refine ⟨?_, ?_, ?_⟩
    · rw [h₁]
      simp [brAddRow]
      ring
    · rw [h₂]
      simp [brAddRow]
      ring
    · rw [h₃]
      simp [brAddRow]
      ring

theorem brTotals_spec (rows : List BRRow) :
    (brTotals rows).budget = round2 ((rows.map fun r => r.budget).sum) ∧
      (brTotals rows).actual = round2 ((rows.map fun r => r.actual).sum) ∧
      (brTotals rows).difference = round2 ((rows.map fun r => r.difference).sum) := by
  obtain ⟨h₁, h₂, h₃⟩ := brFold_fields rows ⟨0, 0, 0⟩
  unfold brTotals
  refine ⟨?_, ?_, ?_⟩ <;> simp [h₁, h₂, h₃]

/-- Items for the C1/C7 concrete input. -/
def c1items : List Item := [⟨"g", "Groceries", "expense", none⟩]

/-- One expense of 0.001 in January 2024. -/
def c1txs : List Tx := [⟨⟨2024, 1, 10⟩, "expense", 1/1000, "g", "w"⟩]

/-- One budget of 0.005 for January 2024. -/
def c1budgets : List BudgetRec := [⟨"g", "2024-01", 1/200⟩]

theorem c1_report_eval :
    buildBudgetReport c1txs c1items c1budgets "2024-01" =
      ⟨[⟨"g", "Groceries", 1/100, 0, 0⟩], ⟨1/100, 0, 0⟩⟩ := by
  have hp : periodRange "2024-01" = some (⟨2024, 1, 1⟩, ⟨2024, 1, 31⟩) := by decide
  simp [buildBudgetReport, hp, actualStep, budgetRowStep, actualRowStep, brTotals,
    brAddRow, c1txs, c1items, c1budgets, inReportRange, ymdLtb, mapGet, mapSet,
    itemNameOf, itemLookup, round2, jsRound]
  norm_num [brAddRow]

/-- C1: the totals record sums the (returned, already 2-digit-rounded) row
values independently and rounds each sum to 2 digits — in particular
`totals.difference` is the rounded sum of the per-row `difference` fields;
and on a concrete input (budget 0.005, actual 0.001) it differs by a cent
from `totals.budget - totals.actual`, confirming sum-then-round over the row
differences rather than differencing the rounded totals. -/
theorem buildBudgetReport_totals_sum_then_round :
    (∀ (txs : List Tx) (items : List Item) (budgets : List BudgetRec)
        (period : String),
      (buildBudgetReport txs items budgets period).totals.budget =
          round2 (((buildBudgetReport txs items budgets period).rows.map
            fun r => r.budget).sum) ∧
        (buildBudgetReport txs items budgets period).totals.actual =
          round2 (((buildBudgetReport txs items budgets period).rows.map
            fun r => r.actual).sum) ∧
        (buildBudgetReport txs items budgets period).totals.difference =
          round2 (((buildBudgetReport txs items budgets period).rows.map
            fun r => r.difference).sum)) ∧
      (buildBudgetReport c1txs c1items c1budgets "2024-01").totals.difference ≠
        (buildBudgetReport c1txs c1items c1budgets "2024-01").totals.budget -
          (buildBudgetReport c1txs c1items c1budgets "2024-01").totals.actual := by
  constructor
  · intro txs items budgets period
    have hrep : (buildBudgetReport txs items budgets period).totals =
        brTotals (buildBudgetReport txs items budgets period).rows := rfl
    rw [hrep]
    exact brTotals_spec _
  · rw [c1_report_eval]
    norm_num

/-- C7 counterexample: the returned row for budget 0.005 / actual 0.001 is
`{budget: 0.01, actual: 0, difference: 0}` — its `difference` (0, the rounding
of 0.005 - 0.001 = 0.004) is NOT `budget - actual` (0.01): the source rounds
the raw difference, it does not subtract the rounded fields. -/
theorem budgetReport_row_identity_counterexample :
    (buildBudgetReport c1txs c1items c1budgets "2024-01").rows =
      [⟨"g", "Groceries", 1/100, 0, 0⟩] ∧
    (0 : ℚ) ≠ 1/100 - 0 := by
  constructor
  · rw [c1_report_eval]
  · norm_num

theorem den_one_sub (q r : ℚ) (hq : q.den = 1) (hr : r.den = 1) :
    (q - r).den = 1 := by
  rw [← eq_num_of_den_one q hq, ← eq_num_of_den_one r hr, ← Int.cast_sub]
  exact Rat.den_intCast _

theorem round2_cent (q : ℚ) (h : (q * 100).den = 1) : round2 q = q := by
  unfold round2
  rw [jsRound_den_one _ h]
  field_simp

/-- A pre-rounding report row whose budget and actual are cent multiples. -/
def CentRow (r : BRAccRow) : Prop :=
  (r.budget * 100).den = 1 ∧ (r.actual * 100).den = 1

theorem foldl_actualStep_cent (range : Option (YMD × YMD)) :
    ∀ (txs : List Tx) (m : List (String × ℚ)),
      (∀ t ∈ txs, (t.amount * 100).den = 1) →
      (∀ kv ∈ m, (kv.2 * 100).den = 1) →
      ∀ kv ∈ txs.foldl (actualStep range) m, (kv.2 * 100).den = 1
  | [], m, _, hm => by simpa using hm
  | t :: txs, m, htxs, hm => by
    rw [List.foldl_cons]
    refine foldl_actualStep_cent range txs _
      (fun t₂ ht₂ => htxs t₂ (List.mem_cons_of_mem _ ht₂)) ?_
    have hamt := htxs t (List.mem_cons_self _ _)
    unfold actualStep
    by_cases hty : t.type = "expense"
    · by_cases hin : inReportRange range t.date
      · rw [if_neg (by simp [hty]), if_neg (by simp [hin])]
        refine valuesP_mapSet (fun v => (v * 100).den = 1) m _ _ hm ?_
        have h0 : (((mapGet m t.itemId).getD 0) * 100).den = 1 := by
          cases hget : mapGet m t.itemId with
          | none => norm_num
          | some o =>
            simpa using mapGet_valuesP (fun v => (v * 100).den = 1) m _ o hm hget
        show (((mapGet m t.itemId).getD 0 + t.amount) * 100).den = 1
        rw [add_mul]
        exact den_one_add _ _ h0 hamt
      · simpa [hty, hin] using hm
    · simpa [hty] using hm

theorem foldl_budgetRowStep_cent (items : List Item) (period : String) :
    ∀ (budgets : List BudgetRec) (m : List (String × BRAccRow)),
      (∀ b ∈ budgets, (b.amount * 100).den = 1) →
      (∀ kv ∈ m, CentRow kv.2) →
      ∀ kv ∈ budgets.foldl (budgetRowStep items period) m, CentRow kv.2
  | [], m, _, hm => by simpa using hm
  | b :: budgets, m, hbs, hm => by
    rw [List.foldl_cons]
    refine foldl_budgetRowStep_cent items period budgets _
      (fun b₂ hb₂ => hbs b₂ (List.mem_cons_of_mem _ hb₂)) ?_
    have hamt := hbs b (List.mem_cons_self _ _)
    unfold budgetRowStep
    by_cases hper : b.period = period
    · rw [if_neg (by simp [hper])]
      refine valuesP_mapSet CentRow m _ _ hm ?_
      exact ⟨hamt, by norm_num [CentRow]⟩
    · simpa [hper] using hm

theorem foldl_actualRowStep_cent (items : List Item) :
    ∀ (entries : List (String × ℚ)) (m : List (String × BRAccRow)),
      (∀ kv ∈ entries, (kv.2 * 100).den = 1) →
      (∀ kv ∈ m, CentRow kv.2) →
      ∀ kv ∈ entries.foldl (actualRowStep items) m, CentRow kv.2
  | [], m, _, hm => by simpa using hm
  | e :: entries, m, hes, hm => by
    rw [List.foldl_cons]
    refine foldl_actualRowStep_cent items entries _
      (fun e₂ he₂ => hes e₂ (List.mem_cons_of_mem _ he₂)) ?_
    have hamt := hes e (List.mem_cons_self _ _)
    unfold actualRowStep
    refine valuesP_mapSet CentRow m _ _ hm ?_
    have hbud : (((mapGet m e.1).getD ⟨e.1, itemNameOf items e.1, 0, 0⟩).budget
        * 100).den = 1 := by
      cases hget : mapGet m e.1 with
      | none => norm_num
      | some o => simpa using (mapGet_valuesP CentRow m _ o hm hget).1
    exact ⟨hbud, hamt⟩

/-- C7 amended: each returned row has `difference = round2(rawBudget -
rawActual)`, which coincides with `budget - actual` over the returned
(rounded) fields whenever every budget amount and every transaction amount is
an exact cent multiple; for finer-grained amounts the identity can fail by a
cent (see the counterexample). -/
theorem budgetReport_row_difference (txs : List Tx) (items : List Item)
    (budgets : List BudgetRec) (period : String)
    (htx : ∀ t ∈ txs, (t.amount * 100).den = 1)
    (hb : ∀ b ∈ budgets, (b.amount * 100).den = 1) :
    ∀ r ∈ (buildBudgetReport txs items budgets period).rows,
      r.difference = r.budget - r.actual := by
  intro r hr
  have hcent : ∀ kv ∈ (txs.foldl (actualStep (periodRange period)) []).foldl
      (actualRowStep items) (budgets.foldl (budgetRowStep items period) []),
      CentRow kv.2 :=
    foldl_actualRowStep_cent items _ _
      (foldl_actualStep_cent (periodRange period) txs [] htx (by simp))
      (foldl_budgetRowStep_cent items period budgets [] hb (by simp))
  have hr₂ : r ∈ ((((txs.foldl (actualStep (periodRange period)) []).foldl
      (actualRowStep items) (budgets.foldl (budgetRowStep items period) [])).map
        fun kv => kv.2).map fun a =>
      (⟨a.itemId, a.itemName, round2 a.budget, round2 a.actual,
        round2 (a.budget - a.actual)⟩ : BRRow)) := List.mem_of_mem_filter hr
  obtain ⟨a, ha, har⟩ := List.mem_map.mp hr₂
  obtain ⟨kv, hkv, hka⟩ := List.mem_map.mp ha
  have hc : CentRow a := hka ▸ hcent kv hkv
  have hsub : ((a.budget - a.actual) * 100).den = 1 := by
    rw [sub_mul]
    exact den_one_sub _ _ hc.1 hc.2
  rw [← har]
  show round2 (a.budget - a.actual) = round2 a.budget - round2 a.actual
  rw [round2_cent _ hc.1, round2_cent _ hc.2, round2_cent _ hsub]

/-- Cent-multiple ledger for the C7 witness: budget 100, actual 40. -/
def centTxs : List Tx := [⟨⟨2024, 1, 10⟩, "expense", 40, "g", "w"⟩]

/-- Budget for the C7 witness. -/
def centBudgets : List BudgetRec := [⟨"g", "2024-01", 100⟩]

/-- Witness for `budgetReport_row_difference` at a cent-multiple ledger: the
single returned row (budget 100, actual 40) satisfies the row identity. -/
theorem budgetReport_row_difference_witness :
    (buildBudgetReport centTxs c1items centBudgets "2024-01").rows =
      [⟨"g", "Groceries", 100, 40, 60⟩] ∧
    (⟨"g", "Groceries", 100, 40, 60⟩ : BRRow).difference =
      (⟨"g", "Groceries", 100, 40, 60⟩ : BRRow).budget -
        (⟨"g", "Groceries", 100, 40, 60⟩ : BRRow).actual := by
  have hp : periodRange "2024-01" = some (⟨2024, 1, 1⟩, ⟨2024, 1, 31⟩) := by decide
  have hrows : (buildBudgetReport centTxs c1items centBudgets "2024-01").rows =
      [⟨"g", "Groceries", 100, 40, 60⟩] := by
    simp [buildBudgetReport, hp, actualStep, budgetRowStep, actualRowStep,
      centTxs, c1items, centBudgets, inReportRange, ymdLtb, mapGet, mapSet,
      itemNameOf, itemLookup, round2, jsRound]
    norm_num
  refine ⟨hrows, ?_⟩
  exact budgetReport_row_difference centTxs c1items centBudgets "2024-01"
    (by intro t ht; fin_cases ht <;> norm_num [centTxs])
    (by intro b hb; fin_cases hb <;> norm_num [centBudgets])
    ⟨"g", "Groceries", 100, 40, 60⟩
    (by rw [hrows]; exact List.mem_singleton.mpr rfl)

/-- Item list for the C6 evaluation. -/
def c6items : List Item := [⟨"food", "Food", "expense", none⟩]

/-- A transaction dated 15 January 2025. -/
def c6txs : List Tx := [⟨⟨2025, 1, 15⟩, "expense", 40, "food", "w"⟩]

/-- C6: refuted — `buildBudgetReport` performs no validation of the period
string.  The malformed period "2024-13" (not of "YYYY-MM" shape) is split and
fed to the `Date` constructor, whose month-overflow normalization silently
turns it into the range 2025-01-01 ... 2025-01-31, and a full report is
computed from it: a January-2025 expense of 40 is attributed to "2024-13".
No `InvalidPeriod` error exists anywhere in the code. -/
theorem buildBudgetReport_accepts_invalid_period :
    buildBudgetReport c6txs c6items [] "2024-13" =
      ⟨[⟨"food", "Food", 0, 40, -40⟩], ⟨0, 40, -40⟩⟩ := by
  have hp : periodRange "2024-13" = some (⟨2025, 1, 1⟩, ⟨2025, 1, 31⟩) := by decide
  simp [buildBudgetReport, hp, actualStep, budgetRowStep, actualRowStep, brTotals,
    brAddRow, c6txs, c6items, inReportRange, ymdLtb, mapGet, mapSet,
    itemNameOf, itemLookup, round2, jsRound]
  norm_num [brAddRow]

/-- Budget record in the App.jsx shape: `{ id, itemId, month, amount }`. -/
structure BudgetM where
  id : String
  itemId : String
  month : String
  amount : ℚ
deriving DecidableEq, Repr

/-- Budget record in the useBudgets-hook shape: `{ id, itemId, period, amount }`. -/
structure BudgetH where
  id : String
  itemId : String
  period : String
  amount : ℚ
deriving DecidableEq, Repr

/-- The `findIndex` + copy-and-replace part of App.jsx `upsertBudget`:
replace the amount of the FIRST entry matching `(itemId, month)`; `none` when
no entry matches. -/
def replaceFirstAmount (itemId month : String) (a : ℚ) :
    List BudgetM → Option (List BudgetM)
  | [] => none
  | b :: rest =>
    if b.itemId = itemId ∧ b.month = month then
      some ({ b with amount := a } :: rest)
    else (replaceFirstAmount itemId month a rest).map fun l => b :: l

/-- App.jsx `upsertBudget({itemId, month, amount})`: clamp the amount with
`Math.max(0, Number(amount) || 0)`, replace the first matching
`(itemId, month)` entry in place, else append a fresh record; `newId` stands
for the impure `uid()`. -/
def upsertBudgetApp (newId : String) (budgets : List BudgetM)
    (itemId month : String) (amount : ℚ) : List BudgetM :=
  match replaceFirstAmount itemId month (max 0 amount) budgets with
  | some l => l
  | none => budgets ++ [⟨newId, itemId, month, max 0 amount⟩]

/-- The useBudgets-hook `upsertBudget(rec)` (src/unnamed/part_001): drop ALL
entries matching the `(itemId, period)` key, then append the record, with
`uid()` when `rec.id` is falsy. -/
def upsertBudgetHook (newId : String) (budgets : List BudgetH) (r : BudgetH) :
    List BudgetH :=
  (budgets.filter fun b => !(b.itemId == r.itemId && b.period == r.period)) ++
    [{ r with id := if r.id = "" then newId else r.id }]

/-- Number of entries for a given `(itemId, month)` key. -/
def countKeyApp (budgets : List BudgetM) (itemId month : String) : Nat :=
  (budgets.filter fun b => b.itemId == itemId && b.month == month).length

/-- Number of entries for a given `(itemId, period)` key. -/
def countKeyHook (budgets : List BudgetH) (itemId period : String) : Nat :=
  (budgets.filter fun b => b.itemId == itemId && b.period == period).length

theorem upsertApp_cons_nomatch (newId itemId month : String) (a : ℚ)
    (b : BudgetM) (rest : List BudgetM)
    (h : ¬(b.itemId = itemId ∧ b.month = month)) :
    upsertBudgetApp newId (b :: rest) itemId month a =
      b :: upsertBudgetApp newId rest itemId month a := by
  have hrf : replaceFirstAmount itemId month (max 0 a) (b :: rest) =
      (replaceFirstAmount itemId month (max 0 a) rest).map fun l => b :: l := by
    unfold replaceFirstAmount
    rw [if_neg h]
    cases rest <;> rfl
  unfold upsertBudgetApp
  rw [hrf]
  cases replaceFirstAmount itemId month (max 0 a) rest <;> simp

theorem upsertApp_unique (newId itemId month : String) (a : ℚ) :
    ∀ budgets : List BudgetM, countKeyApp budgets itemId month ≤ 1 →
      countKeyApp (upsertBudgetApp newId budgets itemId month a) itemId month = 1 ∧
      ∀ b ∈ upsertBudgetApp newId budgets itemId month a,
        b.itemId = itemId → b.month = month → b.amount = max 0 a
  | [], _ => by
    constructor
    · simp [upsertBudgetApp, replaceFirstAmount, countKeyApp]
    · intro b hb h₁ h₂
      simp [upsertBudgetApp, replaceFirstAmount] at hb
      simp [hb]
  | b :: rest, hcount => by
    by_cases hmatch : b.itemId = itemId ∧ b.month = month
    · have hbm : (b.itemId == itemId && b.month == month) = true := by
        simp [hmatch.1, hmatch.2]
      have hc : countKeyApp (b :: rest) itemId month =
          countKeyApp rest itemId month + 1 := by
        simp [countKeyApp, List.filter_cons, hbm]
      have hrest : countKeyApp rest itemId month = 0 := by omega
      have hlen : (rest.filter fun b => b.itemId == itemId && b.month == month).length = 0 :=
        hrest
      have hnorest : ∀ x ∈ rest, ¬(x.itemId = itemId ∧ x.month = month) := by
        intro x hx hxm
        have hnil : (rest.filter fun b => b.itemId == itemId && b.month == month) = [] :=
          List.length_eq_zero.mp hlen
        have hx₂ := List.filter_eq_nil_iff.mp hnil x hx
        simp [hxm.1, hxm.2] at hx₂
      have hrepl : upsertBudgetApp newId (b :: rest) itemId month a =
          { b with amount := max 0 a } :: rest := by
        have hrf : replaceFirstAmount itemId month (max 0 a) (b :: rest) =
            some ({ b with amount := max 0 a } :: rest) := by
          unfold replaceFirstAmount
          rw [if_pos hmatch]
        unfold upsertBudgetApp
        rw [hrf]
      constructor
      · rw [hrepl]
        have hbm₂ : (({ b with amount := max 0 a } : BudgetM).itemId == itemId &&
            ({ b with amount := max 0 a } : BudgetM).month == month) = true := by
          simp [hmatch.1, hmatch.2]
        simp [countKeyApp, List.filter_cons, hbm₂, hlen]
      · rw [hrepl]
        intro x hx h₁ h₂
        rcases List.mem_cons.mp hx with h | h
        · simp [h]
        · exact absurd ⟨h₁, h₂⟩ (hnorest x h)
    · rw [upsertApp_cons_nomatch newId itemId month a b rest hmatch]
      have hskip : (b.itemId == itemId && b.month == month) = false := by
        rcases not_and_or.mp hmatch with h | h <;> simp [h]
      have hc : countKeyApp (b :: rest) itemId month =
          countKeyApp rest itemId month := by
        simp [countKeyApp, List.filter_cons, hskip]
      have hcount₂ : countKeyApp rest itemId month ≤ 1 := by omega
      obtain ⟨ih₁, ih₂⟩ := upsertApp_unique newId itemId month a rest hcount₂
      constructor
      · have hc₂ : countKeyApp (b :: upsertBudgetApp newId rest itemId month a)
            itemId month =
            countKeyApp (upsertBudgetApp newId rest itemId month a) itemId month := by
          simp [countKeyApp, List.filter_cons, hskip]
        rw [hc₂]
        exact ih₁
      · intro x hx h₁ h₂
        rcases List.mem_cons.mp hx with h | h
        · subst h
          exact absurd ⟨h₁, h₂⟩ hmatch
        · exact ih₂ x h h₁ h₂

theorem upsertHook_unique (newId : String) (r : BudgetH) (budgets : List BudgetH) :
    countKeyHook (upsertBudgetHook newId budgets r) r.itemId r.period = 1 ∧
      ∀ b ∈ upsertBudgetHook newId budgets r,
        b.itemId = r.itemId → b.period = r.period → b.amount = r.amount := by
  constructor
  · unfold countKeyHook upsertBudgetHook
    rw [List.filter_append, List.filter_filter]
    have hnil : (budgets.filter fun b =>
        (b.itemId == r.itemId && b.period == r.period) &&
          !(b.itemId == r.itemId && b.period == r.period)) = [] := by
      refine List.filter_eq_nil_iff.mpr fun b _ => ?_
      cases b.itemId == r.itemId && b.period == r.period <;> simp
    rw [hnil]
    simp
  · intro b hb h₁ h₂
    unfold upsertBudgetHook at hb
    rcases List.mem_append.mp hb with h | h
    · have := List.of_mem_filter h
      simp [h₁, h₂] at this
    · simp only [List.mem_singleton] at h
      simp [h]

/-- C8: upsert-by-key semantics in both implementations.  App.jsx
`upsertBudget` replaces the first `(itemId, month)` match in place (so it
keeps the at-most-one invariant and leaves exactly one entry, carrying the
new clamped amount); the useBudgets-hook `upsertBudget` filters out every
`(itemId, period)` match and appends, leaving exactly one unconditionally.
The spec's 500-then-600 scenario leaves exactly one entry with amount 600 in
both. -/
theorem upsertBudget_unique :
    (∀ (newId itemId month : String) (amount : ℚ) (budgets : List BudgetM),
      countKeyApp budgets itemId month ≤ 1 →
        countKeyApp (upsertBudgetApp newId budgets itemId month amount)
          itemId month = 1 ∧
        ∀ b ∈ upsertBudgetApp newId budgets itemId month amount,
          b.itemId = itemId → b.month = month → b.amount = max 0 amount) ∧
    (∀ (newId : String) (r : BudgetH) (budgets : List BudgetH),
      countKeyHook (upsertBudgetHook newId budgets r) r.itemId r.period = 1 ∧
      ∀ b ∈ upsertBudgetHook newId budgets r,
        b.itemId = r.itemId → b.period = r.period → b.amount = r.amount) ∧
    upsertBudgetApp "id2" (upsertBudgetApp "id1" [] "Groceries" "2024-01" 500)
      "Groceries" "2024-01" 600 = [⟨"id1", "Groceries", "2024-01", 600⟩] ∧
    upsertBudgetHook "id2"
      (upsertBudgetHook "id1" [] ⟨"", "Groceries", "2024-01", 500⟩)
      ⟨"", "Groceries", "2024-01", 600⟩ =
      [⟨"id2", "Groceries", "2024-01", 600⟩] := by
  refine ⟨fun newId itemId month amount budgets h =>
      upsertApp_unique newId itemId month amount budgets h,
    fun newId r budgets => upsertHook_unique newId r budgets, ?_, ?_⟩
  · have h1 : upsertBudgetApp "id1" [] "Groceries" "2024-01" 500 =
        [⟨"id1", "Groceries", "2024-01", 500⟩] := by
      simp [upsertBudgetApp, replaceFirstAmount]
    rw [h1]
    simp [upsertBudgetApp, replaceFirstAmount]
  · simp [upsertBudgetHook]

/-- Witness for `upsertBudget_unique` (the two universally quantified parts,
applied at the scenario input). -/
theorem upsertBudget_unique_witness :
    countKeyApp (upsertBudgetApp "id1" [] "Groceries" "2024-01" 500)
      "Groceries" "2024-01" = 1 ∧
    countKeyHook (upsertBudgetHook "id1" [] ⟨"", "Groceries", "2024-01", 500⟩)
      "Groceries" "2024-01" = 1 :=
  ⟨(upsertBudget_unique.1 "id1" "Groceries" "2024-01" 500 []
      (by simp [countKeyApp])).1,
    (upsertBudget_unique.2.1 "id1" ⟨"", "Groceries", "2024-01", 500⟩ []).1⟩

/-- One loop iteration of `walletBalances`: skip transactions whose wallet is
absent from the map (`if (w == null) continue`), else add income / subtract
expense. -/
def wbStep (m : List (String × ℚ)) (t : Tx) : List (String × ℚ) :=
  match mapGet m t.walletId with
  | none => m
  | some w =>
    mapSet m t.walletId (w + (if t.type = "income" then t.amount else -t.amount))

/-- App.jsx `walletBalances`: start from each wallet's `initialBalance || 0`
(the identity on numeric balances) and fold the transactions. -/
def walletBalances (wallets : List Wallet) (txs : List Tx) :
    List (String × ℚ) :=
  txs.foldl wbStep
    (wallets.foldl (fun m w => mapSet m w.id w.initialBalance) [])

/-- Signed contribution of one transaction. -/
def txDelta (t : Tx) : ℚ :=
  if t.type = "income" then t.amount else -t.amount

theorem wbStep_get (m : List (String × ℚ)) (t : Tx) (k : String) (v : ℚ)
    (hget : mapGet m k = some v) :
    mapGet (wbStep m t) k =
      some (v + if t.walletId = k then txDelta t else 0) := by
  unfold wbStep
  by_cases hw : t.walletId = k
  · subst hw
    rw [hget]
    rw [mapGet_mapSet_self]
    simp [txDelta]
  · cases hget₂ : mapGet m t.walletId with
    | none => simp [hget, hw]
    | some w =>
      show mapGet (mapSet m t.walletId
        (w + if t.type = "income" then t.amount else -t.amount)) k = _
      rw [mapGet_mapSet_ne m t.walletId k _ fun h => hw h.symm, hget]
      simp [hw]

theorem wbStep_get_none (m : List (String × ℚ)) (t : Tx) (k : String)
    (hget : mapGet m k = none) : mapGet (wbStep m t) k = none := by
  unfold wbStep
  cases hget₂ : mapGet m t.walletId with
  | none => exact hget
  | some w =>
    have hne : t.walletId ≠ k := by
      intro h
      rw [h, hget] at hget₂
      exact Option.noConfusion hget₂
    rw [mapGet_mapSet_ne m _ _ _ fun h => hne h.symm]
    exact hget

theorem foldl_wbStep_get :
    ∀ (txs : List Tx) (m : List (String × ℚ)) (k : String) (v : ℚ),
      mapGet m k = some v →
      mapGet (txs.foldl wbStep m) k =
        some (v + ((txs.filter fun t => t.walletId == k).map txDelta).sum)
  | [], m, k, v, hget => by simpa using hget
  | t :: txs, m, k, v, hget => by
    rw [List.foldl_cons]
    rw [foldl_wbStep_get txs (wbStep m t) k _ (wbStep_get m t k v hget)]
    by_cases hw : t.walletId = k <;> simp [hw] <;> ring

theorem foldl_wbStep_get_none :
    ∀ (txs : List Tx) (m : List (String × ℚ)) (k : String),
      mapGet m k = none → mapGet (txs.foldl wbStep m) k = none
  | [], _, _, hget => hget
  | t :: txs, m, k, hget => by
    rw [List.foldl_cons]
    exact foldl_wbStep_get_none txs _ k (wbStep_get_none m t k hget)

theorem initMap_get_notmem :
    ∀ (wallets : List Wallet) (m : List (String × ℚ)) (k : String),
      (∀ w ∈ wallets, w.id ≠ k) →
      mapGet (wallets.foldl (fun m w => mapSet m w.id w.initialBalance) m) k =
        mapGet m k
  | [], _, _, _ => rfl
  | w :: wallets, m, k, hne => by
    rw [List.foldl_cons,
      initMap_get_notmem wallets _ k fun w₂ hw₂ => hne w₂ (List.mem_cons_of_mem _ hw₂)]
    exact mapGet_mapSet_ne m _ k _
      fun h => hne w (List.mem_cons_self _ _) h.symm

theorem initMap_get_mem :
    ∀ (wallets : List Wallet) (m : List (String × ℚ)) (w : Wallet),
      w ∈ wallets → (wallets.map fun w => w.id).Nodup →
      mapGet (wallets.foldl (fun m w => mapSet m w.id w.initialBalance) m) w.id =
        some w.initialBalance
  | [], _, _, hw, _ => absurd hw (List.not_mem_nil _)
  | w₀ :: wallets, m, w, hw, hnd => by
    rw [List.foldl_cons]
    rw [List.map_cons, List.nodup_cons] at hnd
    rcases List.mem_cons.mp hw with h | h
    · subst h
      rw [initMap_get_notmem wallets _ w.id fun w₂ hw₂ h₂ =>
        hnd.1 (h₂ ▸ List.mem_map_of_mem (fun w => w.id) hw₂)]
      exact mapGet_mapSet_self m w.id w.initialBalance
    · exact initMap_get_mem wallets _ w h hnd.2

theorem sum_txDelta_split (k : String) :
    ∀ txs : List Tx, (∀ t ∈ txs, t.type = "income" ∨ t.type = "expense") →
      ((txs.filter fun t => t.walletId == k).map txDelta).sum =
        ((txs.filter fun t => t.walletId == k && t.type == "income").map
          fun t => t.amount).sum -
        ((txs.filter fun t => t.walletId == k && t.type == "expense").map
          fun t => t.amount).sum
  | [], _ => by simp
  | t :: txs, hty => by
    have ih := sum_txDelta_split k txs
      fun t₂ ht₂ => hty t₂ (List.mem_cons_of_mem _ ht₂)
    by_cases hw : t.walletId = k
    · rcases hty t (List.mem_cons_self _ _) with h | h
      · have : t.type ≠ "expense" := by rw [h]; decide
        simp only [List.filter_cons, hw, h]
        simp [ih, txDelta, h, this]
        ring
      · have : t.type ≠ "income" := by rw [h]; decide
        simp only [List.filter_cons, hw, h]
        simp [ih, txDelta, h, this]
        ring
    · simp only [List.filter_cons]
      simp [hw, ih]

/-- C10: with distinct wallet ids and well-formed transaction kinds, the
derived balance of every wallet is its `initialBalance` plus the sum of
income amounts minus the sum of expense amounts of the transactions
referencing it; and the balance map contains no key beyond the snapshot's
wallet ids, so a transaction with an absent `walletId` is skipped and changes
no wallet's balance. -/
theorem walletBalances_spec (wallets : List Wallet) (txs : List Tx)
    (hids : (wallets.map fun w => w.id).Nodup)
    (hty : ∀ t ∈ txs, t.type = "income" ∨ t.type = "expense") :
    (∀ w ∈ wallets,
      mapGet (walletBalances wallets txs) w.id =
        some (w.initialBalance +
          (((txs.filter fun t => t.walletId == w.id && t.type == "income").map
            fun t => t.amount).sum -
          ((txs.filter fun t => t.walletId == w.id && t.type == "expense").map
            fun t => t.amount).sum))) ∧
    (∀ k, mapGet (walletBalances wallets txs) k ≠ none →
      ∃ w ∈ wallets, w.id = k) := by
  constructor
  · intro w hw
    unfold walletBalances
    rw [foldl_wbStep_get txs _ w.id w.initialBalance
      (initMap_get_mem wallets [] w hw hids)]
    rw [sum_txDelta_split w.id txs hty]
  · intro k hk
    by_contra hno
    push_neg at hno
    refine hk ?_
    unfold walletBalances
    refine foldl_wbStep_get_none txs _ k ?_
    rw [initMap_get_notmem wallets [] k fun w hw => hno w hw]
    rfl

/-- Wallet snapshot for the C10 witness. -/
def wWallets : List Wallet := [⟨"w1", 100⟩]

/-- Transactions for the C10 witness: +10 income, -3 expense on `w1`, and
one transaction on an absent wallet id. -/
def wTxs : List Tx :=
  [⟨⟨2024, 1, 5⟩, "income", 10, "i", "w1"⟩,
   ⟨⟨2024, 1, 6⟩, "expense", 3, "g", "w1"⟩,
   ⟨⟨2024, 1, 7⟩, "expense", 5, "g", "ghost"⟩]

/-- Witness for `walletBalances_spec` at a concrete snapshot. -/
theorem walletBalances_spec_witness :
    mapGet (walletBalances wWallets wTxs) "w1" =
      some (100 +
        (((wTxs.filter fun t => t.walletId == "w1" && t.type == "income").map
          fun t => t.amount).sum -
        ((wTxs.filter fun t => t.walletId == "w1" && t.type == "expense").map
          fun t => t.amount).sum)) :=
  (walletBalances_spec wWallets wTxs (by simp [wWallets])
      (by intro t ht; fin_cases ht <;> simp [wTxs])).1
    ⟨"w1", 100⟩ (by simp [wWallets])
